import Mathlib

/-!
Verification development for the pydrsom repository (dimension-reduced
trust-region optimizer, DRSOM).  The definitions below are shallow
embeddings of the Python source:

* `PyDRSOM.TRS` embeds the generalized trust-region subproblem solver of
  `src/pydrsom/drsomnd_profile.py` (`_compute_root`, `_norm`, and the
  predicted decrease computed in `DRSOMF.compute_step`), with rational
  arithmetic standing for floats.  The eigenvalue list `D` (the output of
  the external `torch.linalg.eigh(Q)` call) is passed in as an argument;
  theorems that need its defining property assume it as a Rayleigh-quotient
  bound, which is what `eigh` guarantees for a symmetric matrix.
* `PyDRSOM.Model` embeds the construction of the reduced matrices `Q` and
  `G` (`DRSOMB.compute_Q_via_hvp`, `DRSOMB.compute_Q_via_interpolation`,
  `DRSOMB.update_trust_region` in `src/pydrsom/drsom.py`): the upper
  triangle is computed from dot products of the (flattened) directions and
  the lower triangle is mirrored from it.
* `PyDRSOM.Loop` embeds the step-acceptance / adaptation inner loop of
  `DRSOMB.step` (`src/pydrsom/drsom.py` lines 485-589, and the essentially
  identical `src/pydrsom/drsomb.py` lines 462-563), with the per-pass
  results of the external collaborators (the trust-region solve `trs_est`,
  the realized trial direction, and the closure evaluation `loss_est`)
  supplied as an oracle stream of `Outcome`s, and the parameters flattened
  to a single real vector.
-/

namespace PyDRSOM

open Matrix

namespace TRS

/-- The bound `lb = max(0, -lmin)` from `_compute_root` (drsomnd_profile.py line 44). -/
def lbOf (lmin : ℚ) : ℚ := max 0 (-lmin)

/-- Minimum of the eigenvalue list `D` (Python `min(D)`); `D` is nonempty in
the source, so the `[]` case is inert padding. -/
def listMin : List ℚ → ℚ
  | [] => 0
  | x :: xs => xs.foldl min x

/-- Maximum of the eigenvalue list `D` (Python `max(D)`). -/
def listMax : List ℚ → ℚ
  | [] => 0
  | x :: xs => xs.foldl max x

/-- The Lagrange multiplier chosen by `_compute_root`
(drsomnd_profile.py lines 43-46):
`lmax = lmax if lmax > lb else lb + 1e4` followed by
`_lmb_this = gamma * lmax + max(1 - gamma, 0) * lb`. -/
def lmbOf (gamma lmin lmax : ℚ) : ℚ :=
  gamma * (if lbOf lmin < lmax then lmax else lbOf lmin + 10000)
    + max (1 - gamma) 0 * lbOf lmin

/-- Exact linear solve by Cramer's rule, the model of `torch.linalg.solve`.
On a singular matrix the result degenerates to the zero vector (since
`(0 : ℚ)⁻¹ = 0`), standing in for the raised `LinAlgError`. -/
def linSolve {n : ℕ} (A : Matrix (Fin n) (Fin n) ℚ) (b : Fin n → ℚ) :
    Fin n → ℚ :=
  (A.det)⁻¹ • A.cramer b

/-- Squared metric norm `(tr @ alpha).dot(alpha)`; `_norm` in
drsomnd_profile.py (lines 34-36) is its square root. -/
def trNormSq {n : ℕ} (tr : Matrix (Fin n) (Fin n) ℚ) (alpha : Fin n → ℚ) : ℚ :=
  (tr *ᵥ alpha) ⬝ᵥ alpha

/-- Predicted decrease
`trs_est = -1/2 * (Q @ alpha).dot(alpha) - c.dot(alpha)` from
`DRSOMF.compute_step` (drsomnd_profile.py line 275). -/
def trsEst {n : ℕ} (Q : Matrix (Fin n) (Fin n) ℚ) (c alpha : Fin n → ℚ) : ℚ :=
  -(1 / 2) * ((Q *ᵥ alpha) ⬝ᵥ alpha) - c ⬝ᵥ alpha

/-- Result of `_compute_root`: multiplier, coefficients and squared metric
norm (the source also returns an unused iteration counter and a `True`
flag). -/
structure RootResult (n : ℕ) where
  lmb : ℚ
  alpha : Fin n → ℚ
  normSq : ℚ

/-- The function `_compute_root(Q, c, gamma, tr)` from drsomnd_profile.py lines 38-58.
`D` is the eigenvalue list returned by the external `torch.linalg.eigh(Q)`
call on line 41.  The `try/except` around `torch.linalg.solve` is modelled
by the determinant test: on a singular system the source retries with the
multiplier `_lmb_this + 1e-4`. -/
def computeRoot {n : ℕ} (D : List ℚ) (Q tr : Matrix (Fin n) (Fin n) ℚ)
    (c : Fin n → ℚ) (gamma : ℚ) : RootResult n :=
  let lmb := lmbOf gamma (listMin D) (listMax D)
  let A := Q + lmb • tr
  let alpha :=
    if A.det ≠ 0 then linSolve A (-c)
    else linSolve (Q + (lmb + 1 / 10000) • tr) (-c)
  { lmb := lmb, alpha := alpha, normSq := trNormSq tr alpha }

/-- Modelled from the spec: the multiplier formula as the specification
words it, `λ = γ·max(lmax, lb+1) + max(1-γ, 0)·lb`.  Present only to
compare the spec's formula against `lmbOf`, the formula in the source. -/
def lmbSpecFormula (gamma lmin lmax : ℚ) : ℚ :=
  gamma * max lmax (lbOf lmin + 1) + max (1 - gamma) 0 * lbOf lmin

/-- Concrete 2-dimensional reduced curvature matrix used as a test input:
`Q = diag(1, -1/4)`, realizable as `Dᵀ H D` for directions `e₁, e₂/2` and
Hessian `H = diag(1, -1)`. -/
def Qcx : Matrix (Fin 2) (Fin 2) ℚ := !![1, 0; 0, -(1/4)]

/-- The Gram metric matrix of the same directions: `G = diag(1, 1/4)`. -/
def Gcx : Matrix (Fin 2) (Fin 2) ℚ := !![1, 0; 0, 1/4]

/-- The linear term of the same configuration (`c = Dᵀ g` for `g = e₂`). -/
def ccx : Fin 2 → ℚ := ![0, 1/2]

/-- The eigenvalues of `Qcx` in ascending order, as `eigh` returns them. -/
def Dcx : List ℚ := [-(1/4), 1]

end TRS

namespace Model

/-- The method `DRSOMB.compute_Q_via_hvp` (drsom.py lines 218-239): the upper triangle
`Q[i,j] = Σ_p ⟨dᵢ[p], Hv[j][p]⟩` (here a dot product of the flattened
directions with the flattened Hessian-vector products returned by the AD
oracle), then the mirroring loop `Q[i,j] = Q[j,i]` for `j < i`. -/
def hvpQ {d N : ℕ} (dirs Hv : Fin d → Fin N → ℚ) :
    Matrix (Fin d) (Fin d) ℚ :=
  Matrix.of fun i j => if i ≤ j then dirs i ⬝ᵥ Hv j else dirs j ⬝ᵥ Hv i

/-- The assembly step of `DRSOMB.compute_Q_via_interpolation` (drsom.py
lines 339-345): from the flattened coefficient vector `q` fitted by the
external `np.linalg.solve` / `np.linalg.lstsq`, the upper triangle is
filled with `Q[i,j] = q[j(j+1)/2 + i]` and the lower triangle mirrored. -/
def interpQ (d : ℕ) (q : ℕ → ℚ) : Matrix (Fin d) (Fin d) ℚ :=
  Matrix.of fun i j =>
    if i ≤ j then q (j.val * (j.val + 1) / 2 + i.val)
    else q (i.val * (i.val + 1) / 2 + j.val)

/-- The metric matrix built by `DRSOMB.update_trust_region` (drsom.py
lines 365-382): under the Gram option the upper triangle
`G[i,j] = Σ_p ⟨dⱼ[p], dᵢ[p]⟩` is computed and mirrored; otherwise `G` is
the identity (`G[i,i] = 1.0` over a zero matrix). -/
def buildG {d N : ℕ} (gram : Bool) (dirs : Fin d → Fin N → ℚ) :
    Matrix (Fin d) (Fin d) ℚ :=
  if gram then
    Matrix.of fun i j => if i ≤ j then dirs j ⬝ᵥ dirs i else dirs i ⬝ᵥ dirs j
  else 1

end Model

namespace Loop

/-- The adjustment/decay constants of `DRSOMB.step`, collected from
`DRSOMAdjustRules`/`DRSOMDecayRules` (drsom.py) and the corresponding
scalar attributes of drsomb.py (`beta1`, `beta2`, `zeta1`, `zeta2`, `eta`,
`gammalb`, `decay_radius_step`, `radiusub`, `_max_iter_adj`). -/
structure Rules where
  beta1 : ℝ
  beta2 : ℝ
  zeta1 : ℝ
  zeta2 : ℝ
  eta : ℝ
  gammalb : ℝ
  decayRadiusStep : ℝ
  radiusub : ℝ
  maxIterAdj : ℕ

/-- The external results consumed by one pass of the inner loop: the
predicted decrease `trs_est` returned by `compute_step`, the realized trial
direction `d_new = Σ αᵢ dᵢ`, the closure evaluation `loss_est`, and the
momentum contents written by `_save_momentum` on acceptance (the momentum
update `update_running_stat` lives in `drsom_utils.py`, which is not part
of the sources, so its result is an oracle input). -/
structure Outcome (n m : ℕ) where
  trsEst : ℝ
  dNew : Fin n → ℝ
  lossEst : ℝ
  newMomentum : Fin m → Fin n → ℝ

/-- The mutable state of `DRSOMB.step` while the inner adjustment loop is
running: the (flattened) parameters, the `m` momentum buffers of
`self.state`, the scalars `gamma` and `radius`, the snapshot `p_copy`, the
loss computed at the start of the step, and the counter `iter_adj`.
`passes` and `evalPasses` are ghost counters recording how many times the
loop body ran in total and how many times it reached the
evaluate/accept-reject part (i.e. did not take the `trs_est < 0`
`continue`). -/
structure InnerState (n m : ℕ) where
  params : Fin n → ℝ
  momentum : Fin m → Fin n → ℝ
  gamma : ℝ
  radius : ℝ
  snapshot : Fin n → ℝ
  loss : ℝ
  iterAdj : ℕ
  acc : Bool
  passes : ℕ
  evalPasses : ℕ

/-- The aggressive regularization update
`gamma = max(gammalb, min(gamma / beta2, np.log(gamma)))`
(drsom.py lines 533-536, drsomnd_profile.py line 410). -/
noncomputable def aggressiveGamma (gammalb beta2 gamma : ℝ) : ℝ :=
  max gammalb (min (gamma / beta2) (Real.log gamma))

/-- One pass of the inner `while iter_adj < self._max_iter_adj` loop of
`DRSOMB.step` (drsom.py lines 486-578).  The `trs_est < 0` branch updates
`gamma` and `radius` and executes `continue`; otherwise the trial step is
applied, `rho` is computed, `gamma`/`radius` are adjusted against
`zeta1`/`zeta2`, and the step is accepted iff `rho > eta` (on rejection the
parameters are restored from the snapshot and `iter_adj` is incremented;
on acceptance the loop breaks before the increment and `_save_momentum`
runs). -/
noncomputable def innerBody {n m : ℕ} (R : Rules) (o : Outcome n m)
    (s : InnerState n m) : InnerState n m :=
  if o.trsEst < 0 then
    { s with
      gamma := max (s.gamma * R.beta1) (1 / 10000)
      radius := max (s.radius / Real.sqrt R.beta1) (1 / 10 ^ 12)
      passes := s.passes + 1 }
  else
    let rho := (s.loss - o.lossEst) / o.trsEst
    let gamma1 :=
      if rho ≤ R.zeta1 then max (s.gamma * R.beta1) (1 / 10000)
      else if R.zeta2 ≤ rho then aggressiveGamma R.gammalb R.beta2 s.gamma
      else s.gamma
    let radius1 :=
      if rho ≤ R.zeta1 then max (s.radius * R.decayRadiusStep) (1 / 10 ^ 8)
      else if R.zeta2 ≤ rho then min (s.radius / R.decayRadiusStep) R.radiusub
      else s.radius
    let acc : Bool := if R.eta < rho then true else false
    { s with
      params := if acc then fun i => s.params i + o.dNew i else s.snapshot
      momentum := if acc then o.newMomentum else s.momentum
      gamma := gamma1
      radius := radius1
      acc := acc
      iterAdj := if acc then s.iterAdj else s.iterAdj + 1
      passes := s.passes + 1
      evalPasses := s.evalPasses + 1 }

/-- The inner loop itself: while `iter_adj < max_iter_adj` and no pass has
accepted, consume the next oracle outcome and run the body.  The loop in
the source consumes one solver/closure round per pass; a run is therefore
indexed by the finite stream of outcomes it consumes. -/
noncomputable def innerLoop {n m : ℕ} (R : Rules) :
    List (Outcome n m) → InnerState n m → InnerState n m
  | [], s => s
  | o :: rest, s =>
    if s.acc = true ∨ R.maxIterAdj ≤ s.iterAdj then s
    else innerLoop R rest (innerBody R o s)

/-- The persistent optimizer state around one `step` call. -/
structure OuterState (n m : ℕ) where
  params : Fin n → ℝ
  momentum : Fin m → Fin n → ℝ
  gamma : ℝ
  radius : ℝ
  iter : ℕ

/-- The inner-loop state at entry (drsom.py lines 458-485): the snapshot
`p_copy = self._clone_param()` equals the current parameters, `acc_step`
is `False` and `iter_adj` is `1`. -/
def initialInner {n m : ℕ} (loss : ℝ) (os : OuterState n m) :
    InnerState n m :=
  { params := os.params
    momentum := os.momentum
    gamma := os.gamma
    radius := os.radius
    snapshot := os.params
    loss := loss
    iterAdj := 1
    acc := false
    passes := 0
    evalPasses := 0 }

/-- The tail of `DRSOMB.step` after the model/trust-region construction (drsom.py
lines 485-589): run the inner loop, increment `self.iter`, on a
non-accepted outer iteration clear every momentum buffer and reset `gamma`
to `gammalb` (`_clear_momentum`, drsom.py lines 161-167 and 582-587), and
return the loss computed at the start of the step. -/
noncomputable def stepRun {n m : ℕ} (R : Rules) (loss : ℝ)
    (outs : List (Outcome n m)) (os : OuterState n m) :
    OuterState n m × ℝ :=
  let s1 := innerLoop R outs (initialInner loss os)
  let os1 : OuterState n m :=
    { params := s1.params
      momentum := s1.momentum
      gamma := s1.gamma
      radius := s1.radius
      iter := os.iter + 1 }
  let os2 :=
    if s1.acc = true then os1
    else { os1 with momentum := fun _ _ => 0, gamma := R.gammalb }
  (os2, loss)

/-- A solver/closure outcome on which the evaluate part of the pass cannot
accept: either the `trs_est < 0` retry branch fires, or the ratio
`rho = (loss - loss_est) / trs_est` fails `rho > eta`. -/
def notAccepting {n m : ℕ} (R : Rules) (loss : ℝ) (o : Outcome n m) :
    Prop :=
  o.trsEst < 0 ∨ (loss - o.lossEst) / o.trsEst ≤ R.eta

/-- The method `DRSOMB.normalize` (drsom.py lines 422-428, drsomnd_profile.py lines
330-333): the norm of the (flattened) direction, with a zero norm replaced
by `1` before dividing. -/
noncomputable def normalize {n : ℕ} (v : Fin n → ℝ) : Fin n → ℝ :=
  let vnorm := Real.sqrt (∑ i, v i ^ 2)
  let d := if vnorm = 0 then 1 else vnorm
  fun i => v i / d

/-- Concrete rule constants for test runs (the drsomb.py defaults
`beta1 = 50`, `beta2 = 30`, `zeta1 = 0.25`, `zeta2 = 0.75`, `eta = 0.08`,
`gammalb = 1e-12`, `decay_radius_step = 0.2`, `radiusub = 10`), with an
inner budget of `3`. -/
noncomputable def cxRules : Rules :=
  { beta1 := 50
    beta2 := 30
    zeta1 := 1 / 4
    zeta2 := 3 / 4
    eta := 2 / 25
    gammalb := 1 / 10 ^ 12
    decayRadiusStep := 1 / 5
    radiusub := 10
    maxIterAdj := 3 }

/-- An oracle outcome with a negative predicted decrease. -/
noncomputable def cxNeg : Outcome 1 1 :=
  { trsEst := -1
    dNew := fun _ => 0
    lossEst := 0
    newMomentum := fun _ _ => 0 }

/-- An oracle outcome with `trs_est = 1` and `loss_est` equal to the start
loss `5`, so that `rho = 0` and the trial step is rejected. -/
noncomputable def cxEval : Outcome 1 1 :=
  { trsEst := 1
    dNew := fun _ => 2
    lossEst := 5
    newMomentum := fun _ _ => 0 }

/-- A concrete optimizer state for test runs. -/
noncomputable def cxOuter : OuterState 1 1 :=
  { params := fun _ => 1
    momentum := fun _ _ => 1
    gamma := 1 / 1000000
    radius := 10
    iter := 0 }

/-- The inner-loop entry state for `cxOuter` with start loss `5`. -/
noncomputable def cxInner : InnerState 1 1 := initialInner 5 cxOuter

end Loop

/-! ## Helper lemmas about the trust-region solver -/

namespace TRS

lemma computeRoot_lmb {n : ℕ} (D : List ℚ) (Q tr : Matrix (Fin n) (Fin n) ℚ)
    (c : Fin n → ℚ) (gamma : ℚ) :
    (computeRoot D Q tr c gamma).lmb = lmbOf gamma (listMin D) (listMax D) :=
  rfl

lemma computeRoot_alpha_def {n : ℕ} (D : List ℚ)
    (Q tr : Matrix (Fin n) (Fin n) ℚ) (c : Fin n → ℚ) (gamma : ℚ) :
    (computeRoot D Q tr c gamma).alpha =
      if (Q + lmbOf gamma (listMin D) (listMax D) • tr).det ≠ 0 then
        linSolve (Q + lmbOf gamma (listMin D) (listMax D) • tr) (-c)
      else
        linSolve (Q + (lmbOf gamma (listMin D) (listMax D) + 1 / 10000) • tr)
          (-c) :=
  rfl

lemma computeRoot_normSq {n : ℕ} (D : List ℚ)
    (Q tr : Matrix (Fin n) (Fin n) ℚ) (c : Fin n → ℚ) (gamma : ℚ) :
    (computeRoot D Q tr c gamma).normSq =
      trNormSq tr (computeRoot D Q tr c gamma).alpha :=
  rfl

lemma mulVec_linSolve {n : ℕ} (A : Matrix (Fin n) (Fin n) ℚ) (b : Fin n → ℚ)
    (h : A.det ≠ 0) : A *ᵥ linSolve A b = b := by
  rw [linSolve, Matrix.mulVec_smul, Matrix.mulVec_cramer, smul_smul,
    inv_mul_cancel₀ h, one_smul]

lemma mulVec_inj {n : ℕ} (A : Matrix (Fin n) (Fin n) ℚ) (x y : Fin n → ℚ)
    (h : A.det ≠ 0) (hxy : A *ᵥ x = A *ᵥ y) : x = y := by
  have hu : IsUnit A.det := isUnit_iff_ne_zero.mpr h
  have h2 := congrArg (fun v => A⁻¹ *ᵥ v) hxy
  simpa [Matrix.mulVec_mulVec, Matrix.nonsing_inv_mul A hu] using h2

lemma linSolve_eq {n : ℕ} (A : Matrix (Fin n) (Fin n) ℚ) (b x : Fin n → ℚ)
    (h : A.det ≠ 0) (hx : A *ᵥ x = b) : linSolve A b = x := by
  refine mulVec_inj A _ _ h ?_
  rw [mulVec_linSolve A b h, hx]

lemma linSolve_singular {n : ℕ} (A : Matrix (Fin n) (Fin n) ℚ)
    (b : Fin n → ℚ) (h : A.det = 0) : linSolve A b = 0 := by
  rw [linSolve, h]
  simp

lemma dotProduct_self_nonneg {n : ℕ} (x : Fin n → ℚ) : 0 ≤ x ⬝ᵥ x :=
  Finset.sum_nonneg fun i _ => mul_self_nonneg (x i)

lemma lbOf_nonneg (lmin : ℚ) : 0 ≤ lbOf lmin := le_max_left _ _

lemma neg_le_lbOf (lmin : ℚ) : -lmin ≤ lbOf lmin := le_max_right _ _

/-- The multiplier the solver picks is at least the PSD bound `lb`
whenever `0 ≤ γ ≤ 1`. -/
lemma lbOf_le_lmbOf (lmin lmax : ℚ) {gamma : ℚ} (h0 : 0 ≤ gamma)
    (h1 : gamma ≤ 1) : lbOf lmin ≤ lmbOf gamma lmin lmax := by
  unfold lmbOf
  rw [max_eq_left (by linarith : (0:ℚ) ≤ 1 - gamma)]
  by_cases h : lbOf lmin < lmax
  · rw [if_pos h]
    nlinarith [h.le]
  · rw [if_neg h]
    nlinarith

/-- When `(Q + λ·I) α = -c`, the predicted decrease rewrites to
`½ αᵀQα + λ‖α‖²`. -/
lemma trsEst_eq_of_sol {n : ℕ} (Q : Matrix (Fin n) (Fin n) ℚ)
    (c alpha : Fin n → ℚ) (lmb : ℚ)
    (hsol : (Q + lmb • (1 : Matrix (Fin n) (Fin n) ℚ)) *ᵥ alpha = -c) :
    trsEst Q c alpha =
      1 / 2 * ((Q *ᵥ alpha) ⬝ᵥ alpha) + lmb * (alpha ⬝ᵥ alpha) := by
  have h1 : (Q + lmb • (1 : Matrix (Fin n) (Fin n) ℚ)) *ᵥ alpha =
      Q *ᵥ alpha + lmb • alpha := by
    rw [Matrix.add_mulVec, Matrix.smul_mulVec_assoc, Matrix.one_mulVec]
  have h2 : (Q *ᵥ alpha + lmb • alpha) ⬝ᵥ alpha = (-c) ⬝ᵥ alpha := by
    rw [← h1, hsol]
  rw [add_dotProduct, smul_dotProduct, smul_eq_mul, neg_dotProduct] at h2
  unfold trsEst
  linarith

/-- If the multiplier is nonnegative and clears the Rayleigh lower bound
of `Q` at `α`, the predicted decrease is nonnegative. -/
lemma trsEst_nonneg_of_sol {n : ℕ} (Q : Matrix (Fin n) (Fin n) ℚ)
    (c alpha : Fin n → ℚ) (lmin lmb : ℚ)
    (hx : lmin * (alpha ⬝ᵥ alpha) ≤ (Q *ᵥ alpha) ⬝ᵥ alpha)
    (hsol : (Q + lmb • (1 : Matrix (Fin n) (Fin n) ℚ)) *ᵥ alpha = -c)
    (hl0 : 0 ≤ lmb) (hlm : 0 ≤ lmin + lmb) : 0 ≤ trsEst Q c alpha := by
  rw [trsEst_eq_of_sol Q c alpha lmb hsol]
  nlinarith [dotProduct_self_nonneg alpha,
    mul_nonneg hlm (dotProduct_self_nonneg alpha),
    mul_nonneg hl0 (dotProduct_self_nonneg alpha)]

lemma trsEst_zero {n : ℕ} (Q : Matrix (Fin n) (Fin n) ℚ) (c : Fin n → ℚ) :
    trsEst Q c 0 = 0 := by
  simp [trsEst]

end TRS

/-! ## Claim C2 -/

namespace TRS

/-- Claim C2, counterexample: the spec formula
`λ = γ·max(lmax, lb+1) + max(1-γ,0)·lb` disagrees with the multiplier the
solver computes.  At `Q = [[1/2]]` (eigenvalues `D = [1/2]`, so
`lb = 0 < lmax = 1/2`) and `γ = 1`, the code computes `λ = 1/2` while the
claimed formula gives `max(1/2, 1) = 1`. -/
theorem claim_C2_counterexample :
    (computeRoot [(1:ℚ)/2] !![(1:ℚ)/2] !![(1:ℚ)] ![-(1:ℚ)] 1).lmb ≠
      lmbSpecFormula 1 (listMin [(1:ℚ)/2]) (listMax [(1:ℚ)/2]) := by
  rw [computeRoot_lmb]
  norm_num [lmbOf, lmbSpecFormula, lbOf, listMin, listMax, max_def]

/-- Claim C2, amended: the solver chooses
`λ = γ·lmax' + max(1-γ,0)·lb` where `lmax' = lmax` if `lmax > lb` and
`lmax' = lb + 1e4` otherwise (not `max(lmax, lb+1)` as the spec words it);
and in Scenario A (`dim = 1`, `Q = [[2]]`, `c = [-1]`, `G = [[1]]`,
`γ = 0.1`, past the first iteration) it yields `λ = 0.2 = 1/5` and
`α = 1/2.2 = 5/11`. -/
theorem claim_C2_amended :
    (∀ (D : List ℚ) (n : ℕ) (Q tr : Matrix (Fin n) (Fin n) ℚ)
      (c : Fin n → ℚ) (gamma : ℚ),
      (computeRoot D Q tr c gamma).lmb =
        gamma * (if lbOf (listMin D) < listMax D then listMax D
          else lbOf (listMin D) + 10000)
          + max (1 - gamma) 0 * lbOf (listMin D)) ∧
    (computeRoot [(2:ℚ)] !![(2:ℚ)] !![(1:ℚ)] ![-(1:ℚ)] (1/10)).lmb = 1/5 ∧
    (computeRoot [(2:ℚ)] !![(2:ℚ)] !![(1:ℚ)] ![-(1:ℚ)] (1/10)).alpha =
      ![5/11] := by
  refine ⟨fun D n Q tr c gamma => rfl, ?_, ?_⟩
  · rw [computeRoot_lmb]
    norm_num [lmbOf, lbOf, listMin, listMax, max_def]
  · have hl : lmbOf (1/10) (listMin [(2:ℚ)]) (listMax [(2:ℚ)]) = 1/5 := by
      norm_num [lmbOf, lbOf, listMin, listMax, max_def]
    rw [computeRoot_alpha_def, hl]
    rw [if_pos (by
      rw [Matrix.det_fin_one]
      norm_num [Matrix.add_apply, Matrix.smul_apply])]
    refine linSolve_eq _ _ _ (by
      rw [Matrix.det_fin_one]
      norm_num [Matrix.add_apply, Matrix.smul_apply]) ?_
    funext i
    fin_cases i
    simp [Matrix.mulVec, dotProduct, Fin.sum_univ_one, Matrix.add_apply,
      Matrix.smul_apply]
    norm_num

end TRS

/-! ## Claim C3 -/

namespace TRS

lemma lmb_cx1 : lmbOf (1/10) (listMin Dcx) (listMax Dcx) = 13/40 := by
  norm_num [lmbOf, lbOf, listMin, listMax, Dcx, max_def, min_def]

lemma alpha_cx1 :
    (computeRoot Dcx Qcx Gcx ccx (1/10)).alpha = ![0, 80/27] := by
  rw [computeRoot_alpha_def, lmb_cx1]
  rw [if_pos (by
    rw [Matrix.det_fin_two]
    norm_num [Matrix.add_apply, Matrix.smul_apply, Qcx, Gcx])]
  refine linSolve_eq _ _ _ (by
    rw [Matrix.det_fin_two]
    norm_num [Matrix.add_apply, Matrix.smul_apply, Qcx, Gcx]) ?_
  funext i
  fin_cases i <;>
    simp [Matrix.mulVec, dotProduct, Fin.sum_univ_two, Matrix.add_apply,
      Matrix.smul_apply, Qcx, Gcx, ccx] <;>
    norm_num

/-- Claim C3, counterexample: with the Gram metric the predicted decrease
can be negative for the multiplier the solver selects.  At
`Q = diag(1, -1/4)` (one positive eigenvalue), `c = (0, 1/2)`,
`G = diag(1, 1/4)` (the Gram matrix of the directions `e₁, e₂/2`) and
`γ = 0.1 ∈ (0,1]`, the solver returns `α = (0, 80/27)` with
`trs_est = -280/729 < 0`. -/
theorem claim_C3_counterexample :
    trsEst Qcx ccx (computeRoot Dcx Qcx Gcx ccx (1/10)).alpha < 0 := by
  rw [alpha_cx1]
  simp [trsEst, Matrix.mulVec, dotProduct, Fin.sum_univ_two, Qcx, ccx]
  norm_num

/-- Claim C3, amended: restricted to the isotropic metric (`tr = I`, the
`option_tr = 'a'` configuration), the predicted decrease is nonnegative
for every `(Q, c)` and every `γ ∈ (0, 1]`, where `lmin = min(D)` bounds
the Rayleigh quotient of `Q` from below (the property `eigh` guarantees
for the symmetric `Q`).  This covers the singular fallback branch as
well. -/
theorem claim_C3_amended {n : ℕ} (D : List ℚ) (Q : Matrix (Fin n) (Fin n) ℚ)
    (c : Fin n → ℚ) (gamma : ℚ)
    (hray : ∀ x : Fin n → ℚ, listMin D * (x ⬝ᵥ x) ≤ (Q *ᵥ x) ⬝ᵥ x)
    (h0 : 0 < gamma) (h1 : gamma ≤ 1) :
    0 ≤ trsEst Q c (computeRoot D Q 1 c gamma).alpha := by
  have hlb : lbOf (listMin D) ≤ lmbOf gamma (listMin D) (listMax D) :=
    lbOf_le_lmbOf _ _ h0.le h1
  have hl0 : 0 ≤ lmbOf gamma (listMin D) (listMax D) :=
    le_trans (lbOf_nonneg _) hlb
  have hlm : 0 ≤ listMin D + lmbOf gamma (listMin D) (listMax D) := by
    have := neg_le_lbOf (listMin D)
    linarith
  rw [computeRoot_alpha_def]
  by_cases hd :
      (Q + lmbOf gamma (listMin D) (listMax D) •
        (1 : Matrix (Fin n) (Fin n) ℚ)).det ≠ 0
  · rw [if_pos hd]
    exact trsEst_nonneg_of_sol Q c _ (listMin D) _ (hray _)
      (mulVec_linSolve _ _ hd) hl0 hlm
  · rw [if_neg hd]
    push_neg at hd
    by_cases hd2 :
        (Q + (lmbOf gamma (listMin D) (listMax D) + 1 / 10000) •
          (1 : Matrix (Fin n) (Fin n) ℚ)).det ≠ 0
    · exact trsEst_nonneg_of_sol Q c _ (listMin D) _ (hray _)
        (mulVec_linSolve _ _ hd2) (by linarith) (by linarith)
    · push_neg at hd2
      rw [linSolve_singular _ _ hd2, trsEst_zero]

/-- Witness for `claim_C3_amended` at `n = 1`, `Q = [[2]]`, `D = [2]`,
`c = [-1]`, `γ = 1/10`. -/
theorem claim_C3_witness :
    (∀ x : Fin 1 → ℚ,
      TRS.listMin [(2:ℚ)] * (x ⬝ᵥ x) ≤ ((!![(2:ℚ)]) *ᵥ x) ⬝ᵥ x) ∧
    (0 : ℚ) < 1/10 ∧ (1 : ℚ)/10 ≤ 1 ∧
    0 ≤ trsEst !![(2:ℚ)] ![-(1:ℚ)]
      (computeRoot [(2:ℚ)] !![(2:ℚ)] 1 ![-(1:ℚ)] (1/10)).alpha := by
  have hray : ∀ x : Fin 1 → ℚ,
      TRS.listMin [(2:ℚ)] * (x ⬝ᵥ x) ≤ ((!![(2:ℚ)]) *ᵥ x) ⬝ᵥ x := by
    intro x
    have hm : TRS.listMin [(2:ℚ)] = 2 := rfl
    rw [hm]
    have he : ((!![(2:ℚ)]) *ᵥ x) ⬝ᵥ x = 2 * (x ⬝ᵥ x) := by
      simp [Matrix.mulVec, dotProduct, Fin.sum_univ_one]
      ring
    rw [he]
  exact ⟨hray, by norm_num, by norm_num,
    claim_C3_amended [(2:ℚ)] !![(2:ℚ)] ![-(1:ℚ)] (1/10) hray (by norm_num)
      (by norm_num)⟩

end TRS

/-! ## Claim C7 -/

namespace TRS

lemma mulVec_shift {n : ℕ} (Q : Matrix (Fin n) (Fin n) ℚ) (l : ℚ)
    (x : Fin n → ℚ) :
    (Q + l • (1 : Matrix (Fin n) (Fin n) ℚ)) *ᵥ x = Q *ᵥ x + l • x := by
  rw [Matrix.add_mulVec, Matrix.smul_mulVec_assoc, Matrix.one_mulVec]

/-- The multiplier is monotone in `γ` on `[0, 1]`. -/
lemma lmbOf_mono (lmin lmax : ℚ) {g1 g2 : ℚ} (h0 : 0 ≤ g1) (h12 : g1 ≤ g2)
    (h21 : g2 ≤ 1) : lmbOf g1 lmin lmax ≤ lmbOf g2 lmin lmax := by
  unfold lmbOf
  rw [max_eq_left (by linarith : (0:ℚ) ≤ 1 - g1),
    max_eq_left (by linarith : (0:ℚ) ≤ 1 - g2)]
  by_cases h : lbOf lmin < lmax
  · simp only [if_pos h]
    nlinarith [mul_nonneg (by linarith : (0:ℚ) ≤ g2 - g1)
      (by linarith [h.le] : (0:ℚ) ≤ lmax - lbOf lmin)]
  · simp only [if_neg h]
    nlinarith [mul_nonneg (by linarith : (0:ℚ) ≤ g2 - g1)
      (by norm_num : (0:ℚ) ≤ 10000)]

/-- With the identity metric, a larger multiplier never gives a solution
of larger Euclidean norm (as long as the multiplier clears the Rayleigh
lower bound of `Q` and both systems are nonsingular). -/
lemma normSq_antitone {n : ℕ} (Q : Matrix (Fin n) (Fin n) ℚ)
    (b : Fin n → ℚ) (lmin l1 l2 : ℚ)
    (hray : ∀ x : Fin n → ℚ, lmin * (x ⬝ᵥ x) ≤ (Q *ᵥ x) ⬝ᵥ x)
    (hl1 : -lmin ≤ l1) (hl12 : l1 ≤ l2)
    (hd1 : (Q + l1 • (1 : Matrix (Fin n) (Fin n) ℚ)).det ≠ 0)
    (hd2 : (Q + l2 • (1 : Matrix (Fin n) (Fin n) ℚ)).det ≠ 0) :
    linSolve (Q + l2 • 1) b ⬝ᵥ linSolve (Q + l2 • 1) b ≤
      linSolve (Q + l1 • 1) b ⬝ᵥ linSolve (Q + l1 • 1) b := by
  have key : ∀ a1 a2 w : Fin n → ℚ,
      (Q + l1 • (1 : Matrix (Fin n) (Fin n) ℚ)) *ᵥ a1 = b →
      (Q + l2 • (1 : Matrix (Fin n) (Fin n) ℚ)) *ᵥ a2 = b →
      (Q + l1 • (1 : Matrix (Fin n) (Fin n) ℚ)) *ᵥ w = a2 →
      a2 ⬝ᵥ a2 ≤ a1 ⬝ᵥ a1 := by
    intro a1 a2 w h1 h2 hw
    have h2' : Q *ᵥ a2 + l2 • a2 = b := by rw [← mulVec_shift, h2]
    have hdelta : a1 = a2 + (l2 - l1) • w := by
      apply mulVec_inj _ _ _ hd1
      rw [h1, Matrix.mulVec_add, Matrix.mulVec_smul, hw, mulVec_shift]
      have hsm : l1 • a2 + (l2 - l1) • a2 = l2 • a2 := by
        rw [← add_smul]
        congr 1
        ring
      rw [add_assoc, hsm, h2']
    have hwa2 : 0 ≤ w ⬝ᵥ a2 := by
      rw [← hw, dotProduct_comm, mulVec_shift, add_dotProduct,
        smul_dotProduct, smul_eq_mul]
      nlinarith [hray w, dotProduct_self_nonneg w,
        mul_nonneg (by linarith : (0:ℚ) ≤ lmin + l1)
          (dotProduct_self_nonneg w)]
    have hexp : (a2 + (l2 - l1) • w) ⬝ᵥ (a2 + (l2 - l1) • w) =
        a2 ⬝ᵥ a2 + 2 * (l2 - l1) * (w ⬝ᵥ a2)
          + (l2 - l1) ^ 2 * (w ⬝ᵥ w) := by
      simp only [add_dotProduct, dotProduct_add, smul_dotProduct,
        dotProduct_smul, smul_eq_mul]
      rw [dotProduct_comm a2 w]
      ring
    rw [hdelta, hexp]
    nlinarith [mul_nonneg (by linarith : (0:ℚ) ≤ l2 - l1) hwa2,
      mul_nonneg (sq_nonneg (l2 - l1)) (dotProduct_self_nonneg w)]
  exact key _ _ _ (mulVec_linSolve _ _ hd1) (mulVec_linSolve _ _ hd2)
    (mulVec_linSolve _ _ hd1)

lemma lmb_cx2 : lmbOf (1/2) (listMin Dcx) (listMax Dcx) = 5/8 := by
  norm_num [lmbOf, lbOf, listMin, listMax, Dcx, max_def, min_def]

lemma alpha_cx2 :
    (computeRoot Dcx Qcx Gcx ccx (1/2)).alpha = ![0, 16/3] := by
  rw [computeRoot_alpha_def, lmb_cx2]
  rw [if_pos (by
    rw [Matrix.det_fin_two]
    norm_num [Matrix.add_apply, Matrix.smul_apply, Qcx, Gcx])]
  refine linSolve_eq _ _ _ (by
    rw [Matrix.det_fin_two]
    norm_num [Matrix.add_apply, Matrix.smul_apply, Qcx, Gcx]) ?_
  funext i
  fin_cases i <;>
    simp [Matrix.mulVec, dotProduct, Fin.sum_univ_two, Matrix.add_apply,
      Matrix.smul_apply, Qcx, Gcx, ccx] <;>
    norm_num

lemma normSq_cx1 :
    (computeRoot Dcx Qcx Gcx ccx (1/10)).normSq = 1600/729 := by
  rw [computeRoot_normSq, alpha_cx1]
  simp [trNormSq, Matrix.mulVec, dotProduct, Fin.sum_univ_two, Gcx]
  norm_num

lemma normSq_cx2 :
    (computeRoot Dcx Qcx Gcx ccx (1/2)).normSq = 64/9 := by
  rw [computeRoot_normSq, alpha_cx2]
  simp [trNormSq, Matrix.mulVec, dotProduct, Fin.sum_univ_two, Gcx]
  norm_num

/-- Claim C7, counterexample: with the Gram metric the step norm is not
non-increasing in `γ`.  For `Q = diag(1, -1/4)`, `c = (0, 1/2)`,
`G = diag(1, 1/4)` and `γ₁ = 1/10 < γ₂ = 1/2 ≤ 1`, the metric norm of the
returned step grows from `√(1600/729)` to `√(64/9)`. -/
theorem claim_C7_counterexample :
    Real.sqrt (((computeRoot Dcx Qcx Gcx ccx (1/10)).normSq : ℚ) : ℝ) <
      Real.sqrt (((computeRoot Dcx Qcx Gcx ccx (1/2)).normSq : ℚ) : ℝ) := by
  rw [normSq_cx1, normSq_cx2]
  have hlt : ((1600/729 : ℚ) : ℝ) < ((64/9 : ℚ) : ℝ) := by norm_num
  exact Real.sqrt_lt_sqrt (by positivity) hlt

/-- Claim C7, amended: for every fixed `(Q, c)` and `γ₁ < γ₂` in `(0, 1]`,
the stabilizing multiplier at `γ₂` is at least the one at `γ₁`; and with
the isotropic metric (`tr = I`) the metric norm of the returned step at
`γ₂` is at most the one at `γ₁` (assuming, as in the source's normal path,
that both shifted systems are nonsingular; `lmin = min(D)` is the Rayleigh
lower bound of `Q` that `eigh` guarantees). -/
theorem claim_C7_amended {n : ℕ} (D : List ℚ) (Q : Matrix (Fin n) (Fin n) ℚ)
    (c : Fin n → ℚ) (gamma1 gamma2 : ℚ)
    (hray : ∀ x : Fin n → ℚ, listMin D * (x ⬝ᵥ x) ≤ (Q *ᵥ x) ⬝ᵥ x)
    (h0 : 0 < gamma1) (h12 : gamma1 < gamma2) (h21 : gamma2 ≤ 1)
    (hd1 : (Q + lmbOf gamma1 (listMin D) (listMax D) •
      (1 : Matrix (Fin n) (Fin n) ℚ)).det ≠ 0)
    (hd2 : (Q + lmbOf gamma2 (listMin D) (listMax D) •
      (1 : Matrix (Fin n) (Fin n) ℚ)).det ≠ 0) :
    lmbOf gamma1 (listMin D) (listMax D) ≤
      lmbOf gamma2 (listMin D) (listMax D) ∧
    Real.sqrt (((computeRoot D Q 1 c gamma2).normSq : ℚ) : ℝ) ≤
      Real.sqrt (((computeRoot D Q 1 c gamma1).normSq : ℚ) : ℝ) := by
  have hmono := lmbOf_mono (listMin D) (listMax D) h0.le h12.le h21
  refine ⟨hmono, ?_⟩
  have hl1 : -(listMin D) ≤ lmbOf gamma1 (listMin D) (listMax D) :=
    le_trans (neg_le_lbOf _)
      (lbOf_le_lmbOf _ _ h0.le (by linarith))
  have h1n : ∀ a : Fin n → ℚ,
      trNormSq (1 : Matrix (Fin n) (Fin n) ℚ) a = a ⬝ᵥ a := by
    intro a
    rw [trNormSq, Matrix.one_mulVec]
  have hq : (computeRoot D Q 1 c gamma2).normSq ≤
      (computeRoot D Q 1 c gamma1).normSq := by
    rw [computeRoot_normSq, computeRoot_normSq, computeRoot_alpha_def,
      computeRoot_alpha_def, if_pos hd1, if_pos hd2, h1n, h1n]
    exact normSq_antitone Q (-c) (listMin D) _ _ hray hl1 hmono hd1 hd2
  exact Real.sqrt_le_sqrt (by exact_mod_cast hq)

/-- Witness for `claim_C7_amended` at `n = 1`, `Q = [[2]]`, `D = [2]`,
`c = [-1]`, `γ₁ = 1/10`, `γ₂ = 1/2`. -/
theorem claim_C7_witness :
    (∀ x : Fin 1 → ℚ,
      TRS.listMin [(2:ℚ)] * (x ⬝ᵥ x) ≤ ((!![(2:ℚ)]) *ᵥ x) ⬝ᵥ x) ∧
    (0 : ℚ) < 1/10 ∧ (1 : ℚ)/10 < 1/2 ∧ (1 : ℚ)/2 ≤ 1 ∧
    (!![(2:ℚ)] + lmbOf (1/10) (listMin [(2:ℚ)]) (listMax [(2:ℚ)]) •
      (1 : Matrix (Fin 1) (Fin 1) ℚ)).det ≠ 0 ∧
    (!![(2:ℚ)] + lmbOf (1/2) (listMin [(2:ℚ)]) (listMax [(2:ℚ)]) •
      (1 : Matrix (Fin 1) (Fin 1) ℚ)).det ≠ 0 ∧
    (lmbOf (1/10) (listMin [(2:ℚ)]) (listMax [(2:ℚ)]) ≤
      lmbOf (1/2) (listMin [(2:ℚ)]) (listMax [(2:ℚ)]) ∧
    Real.sqrt (((computeRoot [(2:ℚ)] !![(2:ℚ)] 1 ![-(1:ℚ)]
        (1/2)).normSq : ℚ) : ℝ) ≤
      Real.sqrt (((computeRoot [(2:ℚ)] !![(2:ℚ)] 1 ![-(1:ℚ)]
        (1/10)).normSq : ℚ) : ℝ)) := by
  have hray : ∀ x : Fin 1 → ℚ,
      TRS.listMin [(2:ℚ)] * (x ⬝ᵥ x) ≤ ((!![(2:ℚ)]) *ᵥ x) ⬝ᵥ x := by
    intro x
    have hm : TRS.listMin [(2:ℚ)] = 2 := rfl
    rw [hm]
    have he : ((!![(2:ℚ)]) *ᵥ x) ⬝ᵥ x = 2 * (x ⬝ᵥ x) := by
      simp [Matrix.mulVec, dotProduct, Fin.sum_univ_one]
      ring
    rw [he]
  have hd1 : (!![(2:ℚ)] + lmbOf (1/10) (listMin [(2:ℚ)])
      (listMax [(2:ℚ)]) • (1 : Matrix (Fin 1) (Fin 1) ℚ)).det ≠ 0 := by
    rw [Matrix.det_fin_one]
    norm_num [lmbOf, lbOf, listMin, listMax, max_def, Matrix.add_apply,
      Matrix.smul_apply, Matrix.one_apply]
  have hd2 : (!![(2:ℚ)] + lmbOf (1/2) (listMin [(2:ℚ)])
      (listMax [(2:ℚ)]) • (1 : Matrix (Fin 1) (Fin 1) ℚ)).det ≠ 0 := by
    rw [Matrix.det_fin_one]
    norm_num [lmbOf, lbOf, listMin, listMax, max_def, Matrix.add_apply,
      Matrix.smul_apply, Matrix.one_apply]
  exact ⟨hray, by norm_num, by norm_num, by norm_num, hd1, hd2,
    claim_C7_amended [(2:ℚ)] !![(2:ℚ)] ![-(1:ℚ)] (1/10) (1/2) hray
      (by norm_num) (by norm_num) (by norm_num) hd1 hd2⟩

end TRS

/-! ## Helper lemmas about the inner adaptation loop -/

namespace Loop

lemma innerBody_loss {n m : ℕ} (R : Rules) (o : Outcome n m)
    (s : InnerState n m) : (innerBody R o s).loss = s.loss := by
  unfold innerBody
  split <;> simp

lemma innerBody_snapshot {n m : ℕ} (R : Rules) (o : Outcome n m)
    (s : InnerState n m) : (innerBody R o s).snapshot = s.snapshot := by
  unfold innerBody
  split <;> simp

/-- Branch facts about one pass: either the `trs_est < 0` retry fires and
the counters are untouched, or the evaluate part runs, `evalPasses` grows
by one, and `iter_adj` grows exactly when the pass rejects. -/
lemma innerBody_fields {n m : ℕ} (R : Rules) (o : Outcome n m)
    (s : InnerState n m) :
    (o.trsEst < 0 ∧ (innerBody R o s).acc = s.acc ∧
      (innerBody R o s).iterAdj = s.iterAdj ∧
      (innerBody R o s).evalPasses = s.evalPasses) ∨
    (¬ o.trsEst < 0 ∧ (innerBody R o s).evalPasses = s.evalPasses + 1 ∧
      (((innerBody R o s).acc = true ∧
          (innerBody R o s).iterAdj = s.iterAdj) ∨
        ((innerBody R o s).acc = false ∧
          (innerBody R o s).iterAdj = s.iterAdj + 1))) := by
  by_cases h : o.trsEst < 0
  · left
    refine ⟨h, ?_, ?_, ?_⟩ <;> simp [innerBody, if_pos h]
  · right
    refine ⟨h, by simp [innerBody, if_neg h], ?_⟩
    by_cases hacc : R.eta < (s.loss - o.lossEst) / o.trsEst
    · left
      constructor <;> simp [innerBody, if_neg h, if_pos hacc]
    · right
      constructor <;> simp [innerBody, if_neg h, if_neg hacc]

lemma innerBody_acc_false {n m : ℕ} (R : Rules) (o : Outcome n m)
    (s : InnerState n m) (h : s.acc = false)
    (hna : notAccepting R s.loss o) : (innerBody R o s).acc = false := by
  by_cases hneg : o.trsEst < 0
  · simpa [innerBody, if_pos hneg] using h
  · rcases hna with hna | hna
    · exact absurd hna hneg
    · simp [innerBody, if_neg hneg, not_lt.mpr hna]

/-- If the parameters agree with the snapshot whenever no pass has
accepted, one pass preserves that, and the snapshot itself never
changes. -/
lemma innerBody_restore {n m : ℕ} (R : Rules) (o : Outcome n m)
    (s : InnerState n m) :
    (innerBody R o s).acc = false →
      (innerBody R o s).params = s.snapshot ∨
      ((innerBody R o s).params = s.params ∧ (innerBody R o s).acc = s.acc) := by
  intro hacc
  by_cases hneg : o.trsEst < 0
  · right
    constructor <;> simp [innerBody, if_pos hneg]
  · left
    by_cases hrho : R.eta < (s.loss - o.lossEst) / o.trsEst
    · exfalso
      have : (innerBody R o s).acc = true := by
        simp [innerBody, if_neg hneg, if_pos hrho]
      rw [this] at hacc
      exact Bool.true_eq_false.mp hacc
    · simp [innerBody, if_neg hneg, if_neg hrho]

/-- Along any run with no accepted pass yet, the snapshot is constant and
the parameters stay equal to it. -/
lemma innerLoop_params {n m : ℕ} (R : Rules) :
    ∀ (outs : List (Outcome n m)) (s : InnerState n m),
      (s.acc = false → s.params = s.snapshot) →
      (innerLoop R outs s).snapshot = s.snapshot ∧
      ((innerLoop R outs s).acc = false →
        (innerLoop R outs s).params = s.snapshot) := by
  intro outs
  induction outs with
  | nil =>
    intro s h
    exact ⟨rfl, h⟩
  | cons o rest ih =>
    intro s h
    rw [innerLoop]
    by_cases hstop : s.acc = true ∨ R.maxIterAdj ≤ s.iterAdj
    · rw [if_pos hstop]
      exact ⟨rfl, h⟩
    · rw [if_neg hstop]
      have hinv : (innerBody R o s).acc = false →
          (innerBody R o s).params = (innerBody R o s).snapshot := by
        intro hacc
        rw [innerBody_snapshot]
        rcases innerBody_restore R o s hacc with hp | ⟨hp, hacceq⟩
        · exact hp
        · rw [hp]
          have hsf : s.acc = false := by rw [← hacceq]; exact hacc
          exact h hsf
      obtain ⟨h1, h2⟩ := ih (innerBody R o s) hinv
      rw [innerBody_snapshot] at h1 h2
      exact ⟨h1, h2⟩

/-- Along any run whose oracle outcomes all fail the acceptance test, the
`acc` flag stays `false`. -/
lemma innerLoop_acc_false {n m : ℕ} (R : Rules) (loss : ℝ) :
    ∀ (outs : List (Outcome n m)) (s : InnerState n m),
      s.acc = false → s.loss = loss →
      (∀ o ∈ outs, notAccepting R loss o) →
      (innerLoop R outs s).acc = false := by
  intro outs
  induction outs with
  | nil =>
    intro s h _ _
    exact h
  | cons o rest ih =>
    intro s h hl hall
    rw [innerLoop]
    by_cases hstop : s.acc = true ∨ R.maxIterAdj ≤ s.iterAdj
    · rw [if_pos hstop]
      exact h
    · rw [if_neg hstop]
      have hna : notAccepting R s.loss o := by
        rw [hl]
        exact hall o (List.mem_cons_self o rest)
      refine ih (innerBody R o s) (innerBody_acc_false R o s h hna) ?_ ?_
      · rw [innerBody_loss, hl]
      · intro o' ho'
        exact hall o' (List.mem_cons_of_mem _ ho')

/-- The number of evaluate passes a run performs is below the inner
budget, provided the entry state satisfies the loop invariant. -/
lemma innerLoop_evalPasses {n m : ℕ} (R : Rules) :
    ∀ (outs : List (Outcome n m)) (s : InnerState n m),
      (s.acc = false →
        s.evalPasses + 1 ≤ s.iterAdj ∧ s.iterAdj ≤ R.maxIterAdj) →
      (s.acc = true → s.evalPasses ≤ R.maxIterAdj - 1) →
      (innerLoop R outs s).evalPasses ≤ R.maxIterAdj - 1 := by
  intro outs
  induction outs with
  | nil =>
    intro s h1 h2
    cases hb : s.acc with
    | true => exact h2 hb
    | false =>
      obtain ⟨ha, hub⟩ := h1 hb
      show s.evalPasses ≤ R.maxIterAdj - 1
      omega
  | cons o rest ih =>
    intro s h1 h2
    rw [innerLoop]
    by_cases hstop : s.acc = true ∨ R.maxIterAdj ≤ s.iterAdj
    · rw [if_pos hstop]
      cases hb : s.acc with
      | true => exact h2 hb
      | false =>
        obtain ⟨ha, hub⟩ := h1 hb
        omega
    · rw [if_neg hstop]
      push_neg at hstop
      obtain ⟨hacc, hlt⟩ := hstop
      have hfalse : s.acc = false := by
        cases hb : s.acc with
        | true => exact absurd hb hacc
        | false => rfl
      obtain ⟨ha, hub⟩ := h1 hfalse
      rcases innerBody_fields R o s with
        ⟨_, hacc', hiter', heval'⟩ | ⟨_, heval', hcase⟩
      · refine ih (innerBody R o s) ?_ ?_
        · intro _
          rw [heval', hiter']
          exact ⟨ha, hub⟩
        · intro h'
          rw [hacc', hfalse] at h'
          exact absurd h' (by simp)
      · rcases hcase with ⟨hacc', hiter'⟩ | ⟨hacc', hiter'⟩
        · refine ih (innerBody R o s) ?_ ?_
          · intro h'
            rw [h'] at hacc'
            exact absurd hacc' (by simp)
          · intro _
            rw [heval']
            omega
        · refine ih (innerBody R o s) ?_ ?_
          · intro _
            rw [heval', hiter']
            omega
          · intro h'
            rw [h'] at hacc'
            exact absurd hacc' (by simp)

end Loop

/-! ## Claim C1 -/

namespace Loop

lemma innerBody_neg_fields {n m : ℕ} (R : Rules) (o : Outcome n m)
    (s : InnerState n m) (h : o.trsEst < 0) :
    (innerBody R o s).acc = s.acc ∧
    (innerBody R o s).iterAdj = s.iterAdj ∧
    (innerBody R o s).passes = s.passes + 1 := by
  refine ⟨?_, ?_, ?_⟩ <;> simp [innerBody, if_pos h]

/-- A run of `k` all-negative outcomes below the budget consumes all of
them: each fires the `continue` branch, which bumps the pass count but not
the counter the budget is measured against. -/
lemma innerLoop_allNeg_passes {n m : ℕ} (R : Rules) (o : Outcome n m)
    (h : o.trsEst < 0) :
    ∀ (k : ℕ) (s : InnerState n m), s.acc = false →
      s.iterAdj < R.maxIterAdj →
      (innerLoop R (List.replicate k o) s).passes = s.passes + k := by
  intro k
  induction k with
  | zero =>
    intro s _ _
    simp [innerLoop]
  | succ k ih =>
    intro s hacc hiter
    rw [List.replicate_succ, innerLoop,
      if_neg (by simp [hacc]; omega)]
    obtain ⟨h1, h2, h3⟩ := innerBody_neg_fields R o s h
    rw [ih (innerBody R o s) (by rw [h1]; exact hacc)
      (by rw [h2]; exact hiter), h3]
    omega

/-- Claim C1, counterexample: the `trs_est < 0` retry does NOT increment
the inner-iteration counter (`continue` skips the `iter_adj += 1` at the
bottom of the loop), so a run whose solver outcomes all have negative
predicted decrease performs more than `max_inner_iters` passes.  With a
budget of `3`, four all-negative outcomes are all consumed (4 passes), and
one negative pass leaves `iter_adj` unchanged. -/
theorem claim_C1_counterexample :
    cxRules.maxIterAdj <
      (innerLoop cxRules (List.replicate 4 cxNeg) cxInner).passes ∧
    (innerBody cxRules cxNeg cxInner).iterAdj = cxInner.iterAdj := by
  have hneg : cxNeg.trsEst < 0 := by norm_num [cxNeg]
  constructor
  · have hiter : cxInner.iterAdj < cxRules.maxIterAdj := by
      norm_num [cxInner, initialInner, cxOuter, cxRules]
    rw [innerLoop_allNeg_passes cxRules cxNeg hneg 4 cxInner rfl hiter]
    norm_num [cxInner, initialInner, cxOuter, cxRules]
  · exact (innerBody_neg_fields cxRules cxNeg cxInner hneg).2.1

/-- Claim C1, amended: the `trs_est < 0` branch updates
`γ ← max(γ·β1, 1e-4)`, shrinks the radius to
`max(radius/√β1, 1e-12)`, stays in PROPOSE (the `acc` flag and the
parameters are untouched) and does NOT increment the inner-iteration
counter; only evaluate passes do, so a step call performs at most
`max_inner_iters - 1` evaluate passes — but the total number of passes is
not bounded by the budget (see the counterexample). -/
theorem claim_C1_amended {n m : ℕ} (R : Rules) (o : Outcome n m)
    (s : InnerState n m) (outs : List (Outcome n m)) (loss : ℝ)
    (os : OuterState n m) (h : o.trsEst < 0) :
    (innerBody R o s).iterAdj = s.iterAdj ∧
    (innerBody R o s).gamma = max (s.gamma * R.beta1) (1 / 10000) ∧
    (innerBody R o s).radius = max (s.radius / Real.sqrt R.beta1)
      (1 / 10 ^ 12) ∧
    (innerBody R o s).acc = s.acc ∧
    (innerBody R o s).params = s.params ∧
    (innerLoop R outs (initialInner loss os)).evalPasses ≤
      R.maxIterAdj - 1 := by
  refine ⟨by simp [innerBody, if_pos h], by simp [innerBody, if_pos h],
    by simp [innerBody, if_pos h], by simp [innerBody, if_pos h],
    by simp [innerBody, if_pos h], ?_⟩
  rcases Nat.eq_zero_or_pos R.maxIterAdj with hmax | hmax
  · cases outs with
    | nil => simp [innerLoop, initialInner]
    | cons o' rest =>
      rw [innerLoop, if_pos (Or.inr (by simp [initialInner, hmax]))]
      simp [initialInner]
  · refine innerLoop_evalPasses R outs (initialInner loss os) ?_ ?_
    · intro _
      refine ⟨by simp [initialInner], ?_⟩
      simpa [initialInner] using hmax
    · intro hc
      simp [initialInner] at hc

/-- Witness for `claim_C1_amended` at the concrete negative outcome
`cxNeg`. -/
theorem claim_C1_witness :
    cxNeg.trsEst < 0 ∧
    ((innerBody cxRules cxNeg cxInner).iterAdj = cxInner.iterAdj ∧
    (innerBody cxRules cxNeg cxInner).gamma =
      max (cxInner.gamma * cxRules.beta1) (1 / 10000) ∧
    (innerBody cxRules cxNeg cxInner).radius =
      max (cxInner.radius / Real.sqrt cxRules.beta1) (1 / 10 ^ 12) ∧
    (innerBody cxRules cxNeg cxInner).acc = cxInner.acc ∧
    (innerBody cxRules cxNeg cxInner).params = cxInner.params ∧
    (innerLoop cxRules [cxNeg] (initialInner 5 cxOuter)).evalPasses ≤
      cxRules.maxIterAdj - 1) :=
  ⟨by norm_num [cxNeg],
    claim_C1_amended cxRules cxNeg cxInner [cxNeg] 5 cxOuter
      (by norm_num [cxNeg])⟩

end Loop

/-! ## Claim C4 -/

namespace Loop

/-- Claim C4: if no pass of a step call accepts (every oracle outcome fails
the acceptance test — REJECT-FINAL), then at the end of the step every
momentum buffer is exactly zero and `gamma` equals `gammalb`. -/
theorem claim_C4 {n m : ℕ} (R : Rules) (loss : ℝ)
    (outs : List (Outcome n m)) (os : OuterState n m)
    (h : ∀ o ∈ outs, notAccepting R loss o) :
    (stepRun R loss outs os).1.momentum = (fun _ _ => 0) ∧
    (stepRun R loss outs os).1.gamma = R.gammalb := by
  have hacc : (innerLoop R outs (initialInner loss os)).acc = false :=
    innerLoop_acc_false R loss outs (initialInner loss os) rfl rfl h
  constructor <;> simp [stepRun, hacc]

/-- Witness for `claim_C4`: one rejected-by-negative-decrease pass. -/
theorem claim_C4_witness :
    (∀ o ∈ [cxNeg], notAccepting cxRules 5 o) ∧
    ((stepRun cxRules 5 [cxNeg] cxOuter).1.momentum = (fun _ _ => 0) ∧
      (stepRun cxRules 5 [cxNeg] cxOuter).1.gamma = cxRules.gammalb) := by
  have h : ∀ o ∈ [cxNeg], notAccepting cxRules 5 o := by
    intro o ho
    rw [List.mem_singleton] at ho
    subst ho
    left
    norm_num [cxNeg]
  exact ⟨h, claim_C4 cxRules 5 [cxNeg] cxOuter h⟩

end Loop

/-! ## Claim C5 -/

namespace Loop

/-- Claim C5: a rejected trial pass (`trs_est ≥ 0` but `rho ≤ eta`)
restores the parameters from the snapshot, and since the parameters at
every pass entry equal the snapshot, the restored parameters are exactly
(bit-identical, in float terms) the parameters from before the trial step
was applied; moreover any run that has not accepted leaves the parameters
at their original value. -/
theorem claim_C5 {n m : ℕ} (R : Rules) (o : Outcome n m)
    (s : InnerState n m) (outs : List (Outcome n m))
    (hps : s.params = s.snapshot) (htrs : 0 ≤ o.trsEst)
    (hrho : (s.loss - o.lossEst) / o.trsEst ≤ R.eta) :
    (innerBody R o s).params = s.params ∧
    (innerBody R o s).snapshot = s.snapshot ∧
    ((innerLoop R outs s).acc = false →
      (innerLoop R outs s).params = s.params) := by
  refine ⟨?_, innerBody_snapshot R o s, ?_⟩
  · rw [show (innerBody R o s).params = s.snapshot from by
      simp [innerBody, if_neg (not_lt.mpr htrs), if_neg (not_lt.mpr hrho)]]
    exact hps.symm
  · intro hacc
    obtain ⟨_, h2⟩ := innerLoop_params R outs s (fun _ => hps)
    rw [h2 hacc, hps]

/-- Witness for `claim_C5` at the concrete rejected outcome `cxEval`
(`trs_est = 1`, `rho = 0 ≤ eta`). -/
theorem claim_C5_witness :
    cxInner.params = cxInner.snapshot ∧ (0 : ℝ) ≤ cxEval.trsEst ∧
    (cxInner.loss - cxEval.lossEst) / cxEval.trsEst ≤ cxRules.eta ∧
    ((innerBody cxRules cxEval cxInner).params = cxInner.params ∧
      (innerBody cxRules cxEval cxInner).snapshot = cxInner.snapshot ∧
      ((innerLoop cxRules [] cxInner).acc = false →
        (innerLoop cxRules [] cxInner).params = cxInner.params)) :=
  ⟨rfl, by norm_num [cxEval],
    by norm_num [cxInner, cxEval, cxRules, initialInner, cxOuter],
    claim_C5 cxRules cxEval cxInner [] rfl (by norm_num [cxEval])
      (by norm_num [cxInner, cxEval, cxRules, initialInner, cxOuter])⟩

end Loop

/-! ## Claim C8 -/

namespace Loop

/-- Claim C8: a step call that ends in REJECT-FINAL does not raise — in
the model the run is total — and it returns the loss computed by the
closure at the start of the step, unmodified; the outer iteration counter
still advances. -/
theorem claim_C8 {n m : ℕ} (R : Rules) (loss : ℝ)
    (outs : List (Outcome n m)) (os : OuterState n m)
    (h : (innerLoop R outs (initialInner loss os)).acc = false) :
    (stepRun R loss outs os).2 = loss ∧
    (stepRun R loss outs os).1.iter = os.iter + 1 := by
  refine ⟨rfl, ?_⟩
  simp [stepRun, h]

/-- Witness for `claim_C8` on an empty-outcome (immediately exhausted)
run. -/
theorem claim_C8_witness :
    (innerLoop cxRules [] (initialInner 7 cxOuter)).acc = false ∧
    ((stepRun cxRules 7 [] cxOuter).2 = 7 ∧
      (stepRun cxRules 7 [] cxOuter).1.iter = cxOuter.iter + 1) :=
  ⟨rfl, claim_C8 cxRules 7 [] cxOuter rfl⟩

end Loop

/-! ## Claim C6 -/

namespace Model

lemma mirror_symm {d : ℕ} (f : Fin d → Fin d → ℚ) (i j : Fin d) :
    (if i ≤ j then f i j else f j i) = if j ≤ i then f j i else f i j := by
  rcases lt_trichotomy i j with h | h | h
  · rw [if_pos h.le, if_neg (not_le.mpr h)]
  · subst h
    simp
  · rw [if_neg (not_le.mpr h), if_pos h.le]

/-- Claim C6: for every set of basis directions, under both the
Hessian-vector-product strategy and the interpolation strategy, the
constructed matrices satisfy `Q[i,j] = Q[j,i]`, and `G[i,j] = G[j,i]`
(for the Gram option and the identity option alike): computing the upper
triangle and mirroring it makes symmetry hold by construction, whatever
the oracle values are. -/
theorem claim_C6 {d N : ℕ} (dirs Hv : Fin d → Fin N → ℚ) (q : ℕ → ℚ)
    (gram : Bool) (i j : Fin d) :
    hvpQ dirs Hv i j = hvpQ dirs Hv j i ∧
    interpQ d q i j = interpQ d q j i ∧
    buildG gram dirs i j = buildG gram dirs j i := by
  refine ⟨?_, ?_, ?_⟩
  · exact mirror_symm (fun a b => dirs a ⬝ᵥ Hv b) i j
  · exact mirror_symm (fun a b => q (b.val * (b.val + 1) / 2 + a.val)) i j
  · unfold buildG
    cases gram with
    | true =>
      simpa using mirror_symm (fun a b => dirs b ⬝ᵥ dirs a) i j
    | false =>
      simp [Matrix.one_apply, eq_comm]

end Model

/-! ## Claim C9 -/

namespace Loop

/-- Claim C9: whenever the aggressive branch fires with `0 < γ < 1`, the
update `γ ← max(γ_lb, min(γ/β2, ln γ))` jumps straight to the lower bound:
`ln γ < 0 < γ_lb`, so the `min` is at most `ln γ` and the `max` clamps to
`γ_lb` in a single update, for every such `γ`. -/
theorem claim_C9 (gamma gammalb beta2 : ℝ) (h0 : 0 < gamma)
    (h1 : gamma < 1) (hlb : 0 < gammalb) :
    aggressiveGamma gammalb beta2 gamma = gammalb := by
  unfold aggressiveGamma
  have hlog : Real.log gamma < 0 := Real.log_neg h0 h1
  have hmin : min (gamma / beta2) (Real.log gamma) ≤ Real.log gamma :=
    min_le_right _ _
  exact max_eq_left (le_of_lt (lt_of_le_of_lt hmin (lt_trans hlog hlb)))

/-- Witness for `claim_C9` at `γ = 1/2`, `γ_lb = 1e-12`, `β2 = 30`. -/
theorem claim_C9_witness :
    (0 : ℝ) < 1/2 ∧ (1 : ℝ)/2 < 1 ∧ (0 : ℝ) < 1 / 10 ^ 12 ∧
    aggressiveGamma (1 / 10 ^ 12) 30 (1/2) = 1 / 10 ^ 12 :=
  ⟨by norm_num, by norm_num, by norm_num,
    claim_C9 (1/2) (1 / 10 ^ 12) 30 (by norm_num) (by norm_num)
      (by norm_num)⟩

end Loop

/-! ## Claim C10 -/

namespace Loop

/-- Claim C10: for every direction whose norm is exactly zero, `normalize`
returns the direction unchanged instead of dividing by zero: the divisor
is replaced by `1` when the norm is `0`, so normalization is total. -/
theorem claim_C10 {n : ℕ} (v : Fin n → ℝ)
    (h : Real.sqrt (∑ i, v i ^ 2) = 0) : normalize v = v := by
  funext i
  simp [normalize, h]

/-- Witness for `claim_C10`: the freshly zeroed buffer over `Fin 2`. -/
theorem claim_C10_witness :
    Real.sqrt (∑ i : Fin 2, (fun _ : Fin 2 => (0:ℝ)) i ^ 2) = 0 ∧
    normalize (fun _ : Fin 2 => (0:ℝ)) = (fun _ : Fin 2 => (0:ℝ)) := by
  have h : Real.sqrt (∑ i : Fin 2, (fun _ : Fin 2 => (0:ℝ)) i ^ 2) = 0 := by
    simp
  exact ⟨h, claim_C10 (fun _ : Fin 2 => (0:ℝ)) h⟩

end Loop

end PyDRSOM
